import Mathlib

/-!
Shallow embedding of the command-sequencing and streaming-audio-scheduling
core of the learning-session client (`src/components/LearningScreen.tsx`).

The embedding covers:
* the Command Sequencer state held in the `LearningScreen` component
  (`commandQueue`, `isProcessingRef`, `isProcessing`, `shouldProcessNext`)
  together with its three transition functions `handleCommandMessage`,
  `markCommandComplete` and the queue-processing `useEffect` body
  (`queueProcessingEffect`);
* the `StreamingAudioPlayer` class (`addChunk`, `processNextChunk`, the
  per-chunk `onended` handler, `setOnEndCallback`, `stop`);
* the per-command handlers relevant to the claims: the `MCQ_QUESTION` and
  `BINARY_CHOICE_QUESTION` cases of `processCommand`, `playStreamingAudio`
  and the speech cases of `processCommand`, and the answer-submission
  handlers `submitAnswer`, `cancelQuestion`, `submitBinaryAnswer`,
  `cancelBinaryQuestion`;
* the `command` case of `handleWebSocketMessage`.

Modelling conventions: the browser event loop delivers discrete events
(WebSocket messages, completion callbacks, `onended` callbacks, the deferred
`useEffect` run); each such event is one atomic transition on the state.
React state setters are modelled as taking effect at the end of the
transition in which they are issued; `isProcessingRef` is the mutable ref the
source reads synchronously.  Display-only state updates (speaking indicators,
chat log, CSS state) are omitted.  Audio-clock times and chunk durations are
modelled as rationals.  Ghost fields (`inFlight`, `handled`, `fires`,
`starts`) record observable history: which handlers were invoked and in which
order, how often the end-of-utterance callback fired, and at which clock
offsets chunks were scheduled.
-/

/-! ## Command Sequencer (LearningScreen component state and transitions) -/

/-- Sequencer state.  `commandQueue`, `isProcessing`, `shouldProcessNext` are
the React state variables of those names; `isProcessingRef` is the
synchronously-updated ref (source line 305).  `inFlight` is a ghost list of
commands whose handler (`processCommand`) has been invoked but for which no
`markCommandComplete` has been accepted since; `handled` is a ghost list of
all handler invocations in order. -/
structure SeqState (C : Type) where
  commandQueue : List C
  isProcessingRef : Bool
  isProcessing : Bool
  shouldProcessNext : Bool
  inFlight : List C
  handled : List C
deriving DecidableEq

/-- Initial component state: empty queue, nothing processing. -/
def initSeq {C : Type} : SeqState C := ⟨[], false, false, false, [], []⟩

/-- `handleCommandMessage` (source lines 1054-1073): if `isProcessingRef` is
set, append the command to the queue; otherwise set both processing flags and
invoke `processCommand` on it immediately (recorded in the ghost fields). -/
def handleCommandMessage {C : Type} (c : C) (s : SeqState C) : SeqState C :=
  if s.isProcessingRef then
    { s with commandQueue := s.commandQueue ++ [c] }
  else
    { s with isProcessingRef := true, isProcessing := true,
             inFlight := s.inFlight ++ [c], handled := s.handled ++ [c] }

/-- `markCommandComplete` (source lines 503-513): unconditionally clear both
processing flags and request queue advancement.  It takes no command
argument; the ghost `inFlight` is cleared because afterwards the sequencer
regards nothing as in flight. -/
def markCommandComplete {C : Type} (s : SeqState C) : SeqState C :=
  { s with isProcessingRef := false, isProcessing := false,
           shouldProcessNext := true, inFlight := [] }

/-- One run of the queue-processing `useEffect` body (source lines 476-500).
First branch: `shouldProcessNext && commandQueue.length > 0 && !isProcessing`
dequeues the head and invokes its handler.  Second branch:
`commandQueue.length === 0 && shouldProcessNext` resets the processing state
(note: without checking `isProcessing`).  Otherwise no state change. -/
def queueProcessingEffect {C : Type} (s : SeqState C) : SeqState C :=
  match s.commandQueue, s.shouldProcessNext, s.isProcessing with
  | c :: rest, true, false =>
      { s with commandQueue := rest, shouldProcessNext := false,
               isProcessingRef := true, isProcessing := true,
               inFlight := s.inFlight ++ [c], handled := s.handled ++ [c] }
  | [], true, _ =>
      { s with shouldProcessNext := false,
               isProcessingRef := false, isProcessing := false }
  | _, _, _ => s

/-- Commands are identified by an id for the sequencing claims. -/
abbrev CmdId := Nat

/-- Sequencer events as they reach the component: a command submission
(`handleCommandMessage`), a completion callback (`markCommandComplete` from
any handler path), and a deferred run of the queue-processing effect.  React
defers `useEffect` bodies, so an `effect` event may be separated from the
state change that scheduled it by other events. -/
inductive SeqEv
  | submit (c : CmdId)
  | complete
  | effect
deriving DecidableEq

/-- One sequencer transition per event. -/
def seqStep (s : SeqState CmdId) : SeqEv → SeqState CmdId
  | .submit c => handleCommandMessage c s
  | .complete => markCommandComplete s
  | .effect => queueProcessingEffect s

/-- Run a sequence of sequencer events from a given state. -/
def runSeqFrom (s : SeqState CmdId) (tr : List SeqEv) : SeqState CmdId :=
  tr.foldl seqStep s

/-- Run a sequence of sequencer events from the initial state. -/
def runSeq (tr : List SeqEv) : SeqState CmdId := runSeqFrom initSeq tr

/-- The commands submitted by a trace, in submission order. -/
def submittedOf : List SeqEv → List CmdId
  | [] => []
  | .submit c :: tr => c :: submittedOf tr
  | .complete :: tr => submittedOf tr
  | .effect :: tr => submittedOf tr

/-- Restricted schedule in which the queue-processing effect is flushed
immediately after every submission and every completion (no other event
lands between a state change and its effect run). -/
inductive SeqEvB
  | submit (c : CmdId)
  | complete
deriving DecidableEq

/-- Composite transition: the triggering event followed directly by the
queue-processing effect run it schedules. -/
def seqStepB (s : SeqState CmdId) : SeqEvB → SeqState CmdId
  | .submit c => queueProcessingEffect (handleCommandMessage c s)
  | .complete => queueProcessingEffect (markCommandComplete s)

/-- Run a sequence of composite events from the initial state. -/
def runSeqB (tr : List SeqEvB) : SeqState CmdId := tr.foldl seqStepB initSeq

/-- Invariant of the restricted (synchronously flushed) schedule: no effect
run is pending, the ref and the React state agree, the in-flight flag is set
exactly when a handler is in flight, at most one handler is in flight, and
the queue is empty whenever nothing is processing. -/
def BInv (s : SeqState CmdId) : Prop :=
  s.shouldProcessNext = false ∧
  s.isProcessingRef = s.isProcessing ∧
  (s.isProcessingRef = true ↔ s.inFlight ≠ []) ∧
  s.inFlight.length ≤ 1 ∧
  (s.isProcessingRef = false → s.commandQueue = [])

/-! ## StreamingAudioPlayer (source lines 25-173) -/

/-- An audio fragment as the scheduler sees it: an identifier, the duration
its decoded buffer will report, whether the base64 decode in `addChunk`
succeeds, and whether `decodeAudioData` in `processNextChunk` succeeds. -/
structure Chunk where
  id : Nat
  dur : ℚ
  b64ok : Bool
  decodeOk : Bool
deriving DecidableEq

/-- `StreamingAudioPlayer` instance state.  `callbackSet` models
`onEndCallback !== null`; `decoding` is the fragment that the current
`processNextChunk` invocation has already shifted off `pendingChunks`
(source line 73) and whose `decodeAudioData` is still awaited — in that
window the fragment is held only by the suspended invocation and is in no
queue; `fires` is a ghost counter of end-of-utterance callback invocations;
`starts` is a ghost log of `(chunk id, scheduled start time)` pairs in
scheduling order.  The `audioContext` is assumed initialized. -/
structure PlayerState where
  nextStartTime : ℚ
  isPlaying : Bool
  pendingChunks : List Chunk
  isProcessing : Bool
  callbackSet : Bool
  activeNodes : List Nat
  decoding : Option Chunk
  fires : Nat
  starts : List (Nat × ℚ)
deriving DecidableEq

/-- Freshly constructed player. -/
def initPlayer : PlayerState :=
  ⟨0, false, [], false, false, [], none, 0, []⟩

/-- The synchronous prefix of a `processNextChunk` invocation (source lines
64-73): with an empty queue, clear `isProcessing` and return; otherwise set
`isProcessing`, shift the head fragment off `pendingChunks` and start its
decode — the fragment now sits in the awaited-decode slot, in no queue.
While a decode is awaited no further invocation reaches this point:
`addChunk` only kicks when `isProcessing` is clear, and `isProcessing` is set
from before the await until the resolution, whose chained call runs only
afterwards — so a begin step with a decode pending is modelled as
unreachable (no-op). -/
def processNextChunkBegin (s : PlayerState) : PlayerState :=
  match s.decoding with
  | some _ => s
  | none =>
    match s.pendingChunks with
    | [] => { s with isProcessing := false }
    | c :: rest =>
        { s with isProcessing := true, pendingChunks := rest,
                 decoding := some c }

/-- The resumption of a `processNextChunk` invocation when the awaited
`decodeAudioData` settles, with `t` the value of `audioContext.currentTime`
at that moment.  Successful decode (source lines 76-119): schedule the
fragment at `max t nextStartTime`, register its source node, advance
`nextStartTime` by its duration; `isProcessing` stays set exactly when more
chunks are pending (the chained `setTimeout` call).  Failed decode (the
catch branch, lines 121-129): the fragment was already shifted off the
queue and is discarded; clear `isProcessing` and leave everything else —
active nodes, callback, fire count — unchanged. -/
def processNextChunkResolve (t : ℚ) (s : PlayerState) : PlayerState :=
  match s.decoding with
  | none => s
  | some c =>
    if c.decodeOk then
      { s with decoding := none,
               isProcessing := !s.pendingChunks.isEmpty,
               activeNodes := s.activeNodes ++ [c.id],
               nextStartTime := max t s.nextStartTime + c.dur,
               isPlaying := true,
               starts := s.starts ++ [(c.id, max t s.nextStartTime)] }
    else
      { s with decoding := none, isProcessing := false }

/-- `addChunk` (source lines 45-62): base64-decode the fragment and push it
onto `pendingChunks` (a decode exception is caught and the fragment
dropped); when `isProcessing` is clear, `processNextChunk` is invoked
synchronously and runs up to its await — i.e. the freshly pushed head is
immediately shifted into the awaited-decode slot. -/
def addChunk (c : Chunk) (s : PlayerState) : PlayerState :=
  if c.b64ok then
    let s1 := { s with pendingChunks := s.pendingChunks ++ [c] }
    if s.isProcessing then s1 else processNextChunkBegin s1
  else s

/-- The `sourceNode.onended` handler for node `i` (source lines 96-111):
remove the node from the active list; if no active nodes and no pending
chunks remain — the awaited-decode slot is not consulted — clear `isPlaying`
and, when an end callback is installed, invoke it and uninstall it. -/
def onEnded (i : Nat) (s : PlayerState) : PlayerState :=
  let active := s.activeNodes.erase i
  if active.isEmpty && s.pendingChunks.isEmpty then
    { s with activeNodes := active, isPlaying := false,
             fires := if s.callbackSet then s.fires + 1 else s.fires,
             callbackSet := false }
  else
    { s with activeNodes := active }

/-- `setOnEndCallback` (source lines 132-134): installs the callback and
nothing else — in particular it does not test whether playback has already
drained. -/
def setOnEndCallback (s : PlayerState) : PlayerState :=
  { s with callbackSet := true }

/-- `stop` (source lines 136-156): hard-stop and clear everything, reset the
clock, and fire a still-pending end callback.  An awaited decode cannot be
cancelled and survives. -/
def playerStop (s : PlayerState) : PlayerState :=
  { s with activeNodes := [], pendingChunks := [], isPlaying := false,
           isProcessing := false, nextStartTime := 0,
           fires := if s.callbackSet then s.fires + 1 else s.fires,
           callbackSet := false }

/-- Player events: a fragment handed in (`addChunk`, including its
synchronous kick), a chained `processNextChunk` invocation reaching its
shift (`beginProc`), the awaited `decodeAudioData` settling at clock time
`t` (`resolve`), a playback-end callback for node `i`, and the installation
of the end-of-utterance callback (`setOnEndCallback`, the stream-closed
marker of the specification). -/
inductive PEv
  | add (c : Chunk)
  | beginProc
  | resolve (t : ℚ)
  | ended (i : Nat)
  | setCb
deriving DecidableEq

/-- One player transition per event. -/
def pstep (s : PlayerState) : PEv → PlayerState
  | .add c => addChunk c s
  | .beginProc => processNextChunkBegin s
  | .resolve t => processNextChunkResolve t s
  | .ended i => onEnded i s
  | .setCb => setOnEndCallback s

/-- Run a sequence of player events from the initial state. -/
def runP (tr : List PEv) : PlayerState := tr.foldl pstep initPlayer

/-- Number of `setCb` events in a trace (how often the stream was marked
closed). -/
def setCbCount : List PEv → Nat
  | [] => 0
  | PEv.setCb :: tr => setCbCount tr + 1
  | PEv.add _ :: tr => setCbCount tr
  | PEv.beginProc :: tr => setCbCount tr
  | PEv.resolve _ :: tr => setCbCount tr
  | PEv.ended _ :: tr => setCbCount tr

/-- Contribution of an installed callback to the pending-fire budget. -/
def cbBit (s : PlayerState) : Nat := if s.callbackSet then 1 else 0

/-! ## Speech-command handling (`playStreamingAudio` and the speech cases of
`processCommand`) -/

/-- Speech payload as the handlers read it: `audio_bytes` is `some c` when
the payload carries a non-empty base64 string (decoding to fragment `c`) and
`none` when the field is absent or empty (falsy in the source). -/
structure SpeechPayload where
  text : Option String
  audio_bytes : Option Chunk
  stream_complete : Option Bool
deriving DecidableEq

/-- `playStreamingAudio` (source lines 678-731), restricted to its effect on
the player and on completion.  Returned flag: whether `markCommandComplete`
is called by this handler run itself (rather than deferred to the installed
end callback, whose body calls it after a further fixed 1000 ms delay).
Missing player instance: complete immediately.  Otherwise hand the fragment
(if any) to the player; then complete immediately when `stream_complete` is
not `true`, and otherwise install the end callback and do not complete. -/
def playStreamingAudio (hasPlayer : Bool) (s : PlayerState)
    (audioBytes : Option Chunk) (streamComplete : Option Bool) :
    PlayerState × Bool :=
  if !hasPlayer then (s, true)
  else
    let s1 := match audioBytes with
      | some c => addChunk c s
      | none => s
    if streamComplete = some true then (setOnEndCallback s1, false)
    else (s1, true)

/-- The `TEACHER_SPEECH` / `CLASSMATE_SPEECH` cases of `processCommand`
(source lines 525-557): when the payload carries audio bytes or a truthy
`stream_complete`, run `playStreamingAudio`; otherwise complete
immediately.  (The chat-log append for `payload.text` is display-only and
omitted.) -/
def processSpeech (hasPlayer : Bool) (s : PlayerState) (p : SpeechPayload) :
    PlayerState × Bool :=
  if p.audio_bytes.isSome || p.stream_complete = some true then
    playStreamingAudio hasPlayer s p.audio_bytes p.stream_complete
  else (s, true)

/-! ## Question commands and answer submission -/

/-- One multiple-choice option (`MCQOption`, source lines 191-194). -/
structure McqOption where
  text : String
  correct : Bool
deriving DecidableEq

/-- A presented multiple-choice question (`MCQQuestion`). -/
structure McqQuestion where
  question : String
  options : List McqOption
deriving DecidableEq

/-- Raw `MCQ_QUESTION` payload: either field may be absent; an empty
question string is falsy in the source's check. -/
structure McqPayload where
  question : Option String
  options : Option (List McqOption)
deriving DecidableEq

/-- Choice side of a binary-choice question. -/
inductive Side
  | left
  | right
deriving DecidableEq

/-- A presented binary-choice question (`BinaryChoiceQuestion`, source lines
201-206). -/
structure BinaryQuestion where
  question : String
  leftText : String
  rightText : String
  correct : Side
deriving DecidableEq

/-- Raw `BINARY_CHOICE_QUESTION` payload. -/
structure BinaryPayload where
  question : Option String
  leftText : Option String
  rightText : Option String
  correct : Option Side
deriving DecidableEq

/-- Question-related component state. -/
structure QuizUi where
  currentQuestion : Option McqQuestion
  selectedOption : Option Nat
  currentBinaryQuestion : Option BinaryQuestion
  selectedBinaryChoice : Option Side
  showFeedback : Bool
  feedbackCorrect : Bool
deriving DecidableEq

/-- Empty question UI. -/
def initQuizUi : QuizUi := ⟨none, none, none, none, false, false⟩

/-- JavaScript truthiness of an optional string field. -/
def strTruthy : Option String → Bool
  | none => false
  | some s => !(s = "")

/-- The `MCQ_QUESTION` case of `processCommand` (source lines 571-584).
Returned flag: whether `markCommandComplete` is called synchronously by this
case.  Both branches call it (the source comment: mark complete immediately
so other commands can be processed; the question UI stays visible). -/
def processMcqCommand (p : McqPayload) (ui : QuizUi) : QuizUi × Bool :=
  match p.question, p.options with
  | some q, some opts =>
      if q = "" then (ui, true)
      else ({ ui with currentQuestion := some ⟨q, opts⟩, selectedOption := none }, true)
  | _, _ => (ui, true)

/-- The `BINARY_CHOICE_QUESTION` case of `processCommand` (source lines
586-601).  Both branches call `markCommandComplete` synchronously. -/
def processBinaryCommand (p : BinaryPayload) (ui : QuizUi) : QuizUi × Bool :=
  match p.question, p.leftText, p.rightText, p.correct with
  | some q, some l, some r, some c =>
      if q = "" || l = "" || r = "" then (ui, true)
      else ({ ui with currentBinaryQuestion := some ⟨q, l, r, c⟩,
                      selectedBinaryChoice := none }, true)
  | _, _, _, _ => (ui, true)

/-- Observable outbound effects of the answer handlers.  `scheduleMcqClose d`
(resp. `scheduleBinaryClose d`) stands for the `setTimeout` whose body, after
`d` milliseconds, clears the question UI and calls `markCommandComplete`;
`completeNow` is a synchronous `markCommandComplete` call. -/
inductive OutEffect
  | sendMcqInteraction (answer : Nat) (correct : Bool)
  | sendBinaryInteraction (answer : Side) (correct : Bool)
  | scheduleMcqClose (delayMs : Nat)
  | scheduleBinaryClose (delayMs : Nat)
  | completeNow
deriving DecidableEq

/-- `submitAnswer` (source lines 816-850).  With a selection and a current
question: read the selected option (an out-of-range index would throw on the
first line, before any effect — modelled as no effects), send the
`student_interaction` event carrying its `correct` flag, show feedback; when
correct, additionally schedule (2000 ms) the close-and-complete; when
incorrect, nothing further — the question stays up and nothing completes. -/
def submitAnswer (ui : QuizUi) : QuizUi × List OutEffect :=
  match ui.selectedOption, ui.currentQuestion with
  | some i, some q =>
    match q.options.get? i with
    | some opt =>
        let ui' := { ui with showFeedback := true, feedbackCorrect := opt.correct }
        if opt.correct then
          (ui', [OutEffect.sendMcqInteraction i true, OutEffect.scheduleMcqClose 2000])
        else
          (ui', [OutEffect.sendMcqInteraction i false])
    | none => (ui, [])
  | _, _ => (ui, [])

/-- `cancelQuestion` (source lines 853-859): clear the question UI and call
`markCommandComplete`. -/
def cancelQuestion (ui : QuizUi) : QuizUi × List OutEffect :=
  ({ ui with currentQuestion := none, selectedOption := none,
             showFeedback := false, feedbackCorrect := false },
   [OutEffect.completeNow])

/-- `submitBinaryAnswer` (source lines 867-901): same shape as
`submitAnswer`, correctness being agreement of the selected side with the
question's `correct` side. -/
def submitBinaryAnswer (ui : QuizUi) : QuizUi × List OutEffect :=
  match ui.selectedBinaryChoice, ui.currentBinaryQuestion with
  | some ch, some q =>
      let ok : Bool := ch = q.correct
      let ui' := { ui with showFeedback := true, feedbackCorrect := ok }
      if ok then
        (ui', [OutEffect.sendBinaryInteraction ch true, OutEffect.scheduleBinaryClose 2000])
      else
        (ui', [OutEffect.sendBinaryInteraction ch false])
  | _, _ => (ui, [])

/-- `cancelBinaryQuestion` (source lines 904-910). -/
def cancelBinaryQuestion (ui : QuizUi) : QuizUi × List OutEffect :=
  ({ ui with currentBinaryQuestion := none, selectedBinaryChoice := none,
             showFeedback := false, feedbackCorrect := false },
   [OutEffect.completeNow])

/-! ## The `command` case of `handleWebSocketMessage` (source lines
1118-1125) -/

/-- The command envelope of an inbound `{type: "command"}` message; either
field may be absent. -/
structure CmdEnvelope (P : Type) where
  command_type : Option String
  payload : Option P

/-- An inbound message of type `command`; the `command` object itself may be
absent. -/
structure WsCommandMsg (P : Type) where
  command : Option (CmdEnvelope P)

/-- The `command` case of `handleWebSocketMessage`: the guard
`message.command && message.command.command_type && message.command.payload`
admits the message to `handleCommandMessage`; otherwise it is discarded with
only a console error.  An empty `command_type` string is falsy and also
discarded. -/
def handleWsCommandMessage {P : Type} (m : WsCommandMsg P)
    (s : SeqState (String × P)) : SeqState (String × P) :=
  match m.command with
  | some env =>
    match env.command_type, env.payload with
    | some ct, some p =>
        if ct = "" then s else handleCommandMessage (ct, p) s
    | _, _ => s
  | none => s

/-! ## Concrete traces and payloads used by the claim theorems -/

/-- Event sequence exhibiting the admission race: command 10 is processed and
completes while the queue is empty; command 20 arrives before the deferred
queue-processing effect runs and is admitted immediately; the pending effect
then takes its queue-empty branch and clears `isProcessingRef` although
command 20's handler has not completed; command 30 is thereupon admitted
immediately as well. -/
def c1Trace : List SeqEv :=
  [SeqEv.submit 10, SeqEv.complete, SeqEv.submit 20, SeqEv.effect, SeqEv.submit 30]

/-- Composite-schedule trace for the duplicate-completion scenario: command 1
(a question command) is processed and completes immediately; command 2 (an
asynchronous command) is processing; command 3 waits in the queue. -/
def c4Trace : List SeqEvB :=
  [SeqEvB.submit 1, SeqEvB.complete, SeqEvB.submit 2, SeqEvB.submit 3]

/-- A fragment whose decodes succeed. -/
def chunkA : Chunk := ⟨1, 2, true, true⟩

/-- A second fragment whose decodes succeed. -/
def chunkB : Chunk := ⟨2, 3 / 2, true, true⟩

/-- A fragment whose `decodeAudioData` fails. -/
def chunkBad : Chunk := ⟨3, 1, true, false⟩

/-- Player trace in which the single fragment of the utterance finishes
playing before the stream is marked closed. -/
def c3Trace : List PEv :=
  [PEv.add chunkA, PEv.resolve 0, PEv.ended 1, PEv.setCb]

/-- Player trace whose fires can be inspected after an actual callback
installation and drain. -/
def c3FireTrace : List PEv := [PEv.setCb, PEv.add chunkA, PEv.resolve 0]

/-- Player trace for the decode-failure-as-last-fragment scenario: the
closing fragment's decode fails after the stream is marked closed. -/
def c8Trace : List PEv :=
  [PEv.add chunkBad, PEv.resolve 0, PEv.setCb]

/-- A well-formed multiple-choice payload. -/
def mcqPayloadEx : McqPayload :=
  ⟨some "2 + 2 = ?", some [⟨"4", true⟩, ⟨"5", false⟩]⟩

/-- A well-formed binary-choice payload. -/
def binaryPayloadEx : BinaryPayload :=
  ⟨some "Is the sky blue?", some "yes", some "no", some Side.left⟩

/-- Question UI with a presented question and a selected incorrect option. -/
def quizUiWrong : QuizUi :=
  { initQuizUi with
      currentQuestion := some ⟨"2 + 2 = ?", [⟨"4", true⟩, ⟨"5", false⟩]⟩,
      selectedOption := some 1 }

/-- Question UI with a presented question and the correct option selected. -/
def quizUiRight : QuizUi :=
  { quizUiWrong with selectedOption := some 0 }

/-- Binary question UI with the incorrect side selected. -/
def binaryUiWrong : QuizUi :=
  { initQuizUi with
      currentBinaryQuestion := some ⟨"Is the sky blue?", "yes", "no", Side.left⟩,
      selectedBinaryChoice := some Side.right }

/-- Binary question UI with the correct side selected. -/
def binaryUiRight : QuizUi :=
  { binaryUiWrong with selectedBinaryChoice := some Side.left }

/-- Player reached by handing two fragments to an idle player: `chunkA` sits
in the awaited-decode slot (the first add kicked `processNextChunk`, which
shifted it) and `chunkB` is queued behind it. -/
def playerTwoChunks : PlayerState := runP [PEv.add chunkA, PEv.add chunkB]

/-- Player state with two fragments queued and no decode awaited, for the
decode-failure theorem's witness. -/
def c8StartState : PlayerState :=
  { initPlayer with pendingChunks := [chunkBad, chunkA] }

/-- Player trace for the early-completion scenario: fragment 1 is scheduled
and playing; the closing command hands fragment 2 — `addChunk`'s synchronous
kick shifts it straight into the awaited-decode slot, leaving `pendingChunks`
empty — and installs the end callback; fragment 1 then finishes playing
while fragment 2's decode is still awaited. -/
def c6Trace : List PEv :=
  [PEv.add chunkA, PEv.resolve 0, PEv.add chunkB, PEv.setCb, PEv.ended 1]

/-- Speech payload carrying a fragment with `stream_complete: false`. -/
def speechOpenPayload : SpeechPayload := ⟨some "hello", some chunkA, some false⟩

/-- Speech payload carrying a fragment with `stream_complete: true`. -/
def speechClosingPayload : SpeechPayload := ⟨some "there", some chunkB, some true⟩

/-! ## Helper lemmas -/

lemma runSeq_append (xs ys : List SeqEv) :
    runSeq (xs ++ ys) = runSeqFrom (runSeq xs) ys :=
  List.foldl_append seqStep initSeq xs ys

lemma runSeqFrom_cons (s : SeqState CmdId) (e : SeqEv) (tr : List SeqEv) :
    runSeqFrom s (e :: tr) = runSeqFrom (seqStep s e) tr := rfl

lemma runP_append (xs ys : List PEv) :
    runP (xs ++ ys) = ys.foldl pstep (runP xs) :=
  List.foldl_append pstep initPlayer xs ys

/-- The concatenation of invoked handlers and queued commands only ever grows
by insertions, so any sublist of it is preserved by every sequencer event. -/
lemma combined_sublist_step (s : SeqState CmdId) (e : SeqEv) (l : List CmdId)
    (h : List.Sublist l (s.handled ++ s.commandQueue)) :
    List.Sublist l ((seqStep s e).handled ++ (seqStep s e).commandQueue) := by
  obtain ⟨q, ref, proc, sn, fl, hd⟩ := s
  cases e with
  | submit c =>
      cases ref with
      | false =>
          simpa [seqStep, handleCommandMessage, List.append_assoc] using
            h.trans ((List.sublist_cons_self c q).append_left hd)
      | true =>
          simpa [seqStep, handleCommandMessage, ← List.append_assoc] using
            h.trans (List.sublist_append_left (hd ++ q) [c])
  | complete => simpa [seqStep, markCommandComplete] using h
  | effect =>
      cases q with
      | nil =>
          cases sn <;> simpa [seqStep, queueProcessingEffect] using h
      | cons c rest =>
          cases sn with
          | false => simpa [seqStep, queueProcessingEffect] using h
          | true =>
              cases proc with
              | false =>
                  simpa [seqStep, queueProcessingEffect, List.append_assoc] using h
              | true => simpa [seqStep, queueProcessingEffect] using h

lemma combined_sublist_runFrom (tr : List SeqEv) (s : SeqState CmdId)
    (l : List CmdId) (h : List.Sublist l (s.handled ++ s.commandQueue)) :
    List.Sublist l ((runSeqFrom s tr).handled ++ (runSeqFrom s tr).commandQueue) := by
  induction tr generalizing s with
  | nil => exact h
  | cons e tr ih => exact ih (seqStep s e) (combined_sublist_step s e l h)

lemma submittedOf_cons (e : SeqEv) (tr : List SeqEv) :
    submittedOf (e :: tr) = submittedOf [e] ++ submittedOf tr := by
  cases e <;> rfl

/-- One sequencer event extends the handled-plus-queued commands exactly by
the commands it submits (as a multiset). -/
lemma combined_perm_step (s : SeqState CmdId) (e : SeqEv) :
    List.Perm ((seqStep s e).handled ++ (seqStep s e).commandQueue)
      ((s.handled ++ s.commandQueue) ++ submittedOf [e]) := by
  obtain ⟨q, ref, proc, sn, fl, hd⟩ := s
  cases e with
  | submit c =>
      cases ref with
      | false =>
          show List.Perm ((hd ++ [c]) ++ q) ((hd ++ q) ++ [c])
          rw [List.append_assoc, List.singleton_append]
          exact List.perm_middle.trans (List.perm_append_singleton c (hd ++ q)).symm
      | true =>
          show List.Perm (hd ++ (q ++ [c])) ((hd ++ q) ++ [c])
          rw [List.append_assoc]
  | complete =>
      show List.Perm (hd ++ q) ((hd ++ q) ++ [])
      rw [List.append_nil]
  | effect =>
      cases q with
      | nil =>
          cases sn with
          | false =>
              show List.Perm (hd ++ []) ((hd ++ []) ++ [])
              simp only [List.append_nil]
              exact List.Perm.refl hd
          | true =>
              show List.Perm (hd ++ []) ((hd ++ []) ++ [])
              simp only [List.append_nil]
              exact List.Perm.refl hd
      | cons c rest =>
          cases sn with
          | false =>
              show List.Perm (hd ++ c :: rest) ((hd ++ c :: rest) ++ [])
              rw [List.append_nil]
          | true =>
              cases proc with
              | false =>
                  show List.Perm ((hd ++ [c]) ++ rest) ((hd ++ c :: rest) ++ [])
                  rw [List.append_nil, List.append_assoc, List.singleton_append]
              | true =>
                  show List.Perm (hd ++ c :: rest) ((hd ++ c :: rest) ++ [])
                  rw [List.append_nil]

lemma combined_perm_runFrom (tr : List SeqEv) (s : SeqState CmdId) :
    List.Perm ((runSeqFrom s tr).handled ++ (runSeqFrom s tr).commandQueue)
      ((s.handled ++ s.commandQueue) ++ submittedOf tr) := by
  induction tr generalizing s with
  | nil =>
      show List.Perm (s.handled ++ s.commandQueue) ((s.handled ++ s.commandQueue) ++ [])
      rw [List.append_nil]
  | cons e tr ih =>
      rw [runSeqFrom_cons, submittedOf_cons, ← List.append_assoc]
      exact (ih (seqStep s e)).trans
        ((combined_perm_step s e).append_right (submittedOf tr))

/-- Every submitted command ends up in the handled list or the queue, and
nothing else does. -/
lemma combined_perm (tr : List SeqEv) :
    List.Perm ((runSeq tr).handled ++ (runSeq tr).commandQueue) (submittedOf tr) := by
  have h := combined_perm_runFrom tr initSeq
  simpa [initSeq, runSeq] using h

/-- If a pair embeds in order into `H ++ Q`, the second element lies in `H`,
and there are no duplicates, the pair embeds into `H` alone. -/
lemma sublist_pair_prefix (a b : CmdId) (H Q : List CmdId)
    (hs : List.Sublist [a, b] (H ++ Q)) (hb : b ∈ H) (hnd : (H ++ Q).Nodup) :
    List.Sublist [a, b] H := by
  rcases List.sublist_append_iff.mp hs with ⟨l₁, l₂, heq, h₁, h₂⟩
  have hdisj := List.disjoint_of_nodup_append hnd
  rcases l₁ with _ | ⟨x, _ | ⟨y, ys⟩⟩
  · have hl₂ : l₂ = [a, b] := by simpa using heq.symm
    have hbq : b ∈ Q := h₂.subset (by simp [hl₂])
    exact absurd hbq (hdisj hb)
  · have h' := heq
    simp only [List.singleton_append, List.cons.injEq] at h'
    have hbq : b ∈ Q := h₂.subset (by rw [← h'.2]; simp)
    exact absurd hbq (hdisj hb)
  · have h' := heq
    simp only [List.cons_append, List.cons.injEq] at h'
    obtain ⟨hxa, hyb, hrest⟩ := h'
    have hys : ys = [] := by
      cases ys with
      | nil => rfl
      | cons z zs => simp at hrest
    subst hys
    subst hxa
    subst hyb
    exact h₁

/-- A begin step never touches the fire count. -/
lemma processNextChunkBegin_fires (s : PlayerState) :
    (processNextChunkBegin s).fires = s.fires := by
  unfold processNextChunkBegin
  split
  · rfl
  · split <;> rfl

/-- A begin step never touches the installed callback. -/
lemma processNextChunkBegin_callbackSet (s : PlayerState) :
    (processNextChunkBegin s).callbackSet = s.callbackSet := by
  unfold processNextChunkBegin
  split
  · rfl
  · split <;> rfl

/-- A decode resolution never touches the fire count. -/
lemma processNextChunkResolve_fires (t : ℚ) (s : PlayerState) :
    (processNextChunkResolve t s).fires = s.fires := by
  unfold processNextChunkResolve
  split
  · rfl
  · split <;> rfl

/-- A decode resolution never touches the installed callback. -/
lemma processNextChunkResolve_callbackSet (t : ℚ) (s : PlayerState) :
    (processNextChunkResolve t s).callbackSet = s.callbackSet := by
  unfold processNextChunkResolve
  split
  · rfl
  · split <;> rfl

/-- Handing a fragment in never touches the fire count. -/
lemma addChunk_fires (c : Chunk) (s : PlayerState) :
    (addChunk c s).fires = s.fires := by
  unfold addChunk
  split
  · split
    · rfl
    · exact processNextChunkBegin_fires _
  · rfl

/-- Handing a fragment in never touches the installed callback. -/
lemma addChunk_callbackSet (c : Chunk) (s : PlayerState) :
    (addChunk c s).callbackSet = s.callbackSet := by
  unfold addChunk
  split
  · split
    · rfl
    · exact processNextChunkBegin_callbackSet _
  · rfl

lemma fires_budget_step (s : PlayerState) (e : PEv) :
    (pstep s e).fires + cbBit (pstep s e) ≤
      s.fires + cbBit s + setCbCount [e] := by
  cases e with
  | add c =>
      simp [pstep, cbBit, setCbCount, addChunk_fires, addChunk_callbackSet]
  | beginProc =>
      simp [pstep, cbBit, setCbCount, processNextChunkBegin_fires,
        processNextChunkBegin_callbackSet]
  | resolve t =>
      simp [pstep, cbBit, setCbCount, processNextChunkResolve_fires,
        processNextChunkResolve_callbackSet]
  | ended i =>
      by_cases hdr : ((s.activeNodes.erase i).isEmpty && s.pendingChunks.isEmpty) = true
      · cases hcb : s.callbackSet <;>
          simp [pstep, onEnded, hdr, hcb, cbBit, setCbCount]
      · simp [pstep, onEnded, hdr, cbBit, setCbCount]
  | setCb =>
      cases hcb : s.callbackSet <;>
        simp [pstep, setOnEndCallback, hcb, cbBit, setCbCount]

lemma fires_budget_foldl (tr : List PEv) :
    ∀ s : PlayerState,
      (tr.foldl pstep s).fires + cbBit (tr.foldl pstep s) ≤
        s.fires + cbBit s + setCbCount tr := by
  induction tr with
  | nil => intro s; simp [setCbCount]
  | cons e tr ih =>
      intro s
      have h1 := ih (pstep s e)
      have h2 := fires_budget_step s e
      have h3 : setCbCount (e :: tr) = setCbCount [e] + setCbCount tr := by
        cases e <;> simp [setCbCount, Nat.add_comm]
      calc (List.foldl pstep (pstep s e) tr).fires
            + cbBit (List.foldl pstep (pstep s e) tr)
          ≤ (pstep s e).fires + cbBit (pstep s e) + setCbCount tr := h1
        _ ≤ s.fires + cbBit s + setCbCount [e] + setCbCount tr := by
              exact Nat.add_le_add_right h2 _
        _ = s.fires + cbBit s + setCbCount (e :: tr) := by
              rw [h3, Nat.add_assoc]

/-- The end-of-utterance fire count never exceeds the number of times the
stream was marked closed. -/
lemma fires_le_setCbCount (tr : List PEv) :
    (runP tr).fires + cbBit (runP tr) ≤ setCbCount tr := by
  have h := fires_budget_foldl tr initPlayer
  simpa [runP, initPlayer, cbBit] using h

/-- The fire count changes only on a playback-end event taken in a state with
the callback installed and with both the active set and the pending queue
drained afterwards. -/
lemma fires_change_drained (tr : List PEv) (e : PEv)
    (h : (runP (tr ++ [e])).fires ≠ (runP tr).fires) :
    (runP (tr ++ [e])).activeNodes = [] ∧
      (runP (tr ++ [e])).pendingChunks = [] ∧
      (runP tr).callbackSet = true ∧ ∃ i, e = PEv.ended i := by
  rw [runP_append] at h ⊢
  set s := runP tr with hs
  cases e with
  | add c => exact absurd (addChunk_fires c s) h
  | beginProc => exact absurd (processNextChunkBegin_fires s) h
  | resolve t => exact absurd (processNextChunkResolve_fires t s) h
  | ended i =>
      by_cases hdr : ((s.activeNodes.erase i).isEmpty && s.pendingChunks.isEmpty) = true
      · cases hcb : s.callbackSet with
        | false =>
            exfalso
            apply h
            show (onEnded i s).fires = s.fires
            simp [onEnded, hdr, hcb]
        | true =>
            have hdr' := hdr
            simp only [Bool.and_eq_true, List.isEmpty_iff] at hdr'
            refine ⟨?_, ?_, rfl, ⟨i, rfl⟩⟩
            · show (onEnded i s).activeNodes = []
              simp [onEnded, hdr'.1, hdr'.2]
            · show (onEnded i s).pendingChunks = []
              simp [onEnded, hdr'.1, hdr'.2]
      · exfalso
        apply h
        show (onEnded i s).fires = s.fires
        simp [onEnded, hdr]
  | setCb => exact absurd rfl h

lemma binv_init : BInv initSeq := by
  refine ⟨rfl, rfl, ?_, ?_, fun _ => rfl⟩
  · constructor
    · intro h; exact absurd h (by simp [initSeq])
    · intro h; exact absurd rfl h
  · simp [initSeq]

lemma binv_step (s : SeqState CmdId) (e : SeqEvB) (h : BInv s) :
    BInv (seqStepB s e) := by
  obtain ⟨h1, h2, h3, h4, h5⟩ := h
  obtain ⟨q, ref, proc, sn, fl, hd⟩ := s
  simp only at h1 h2 h3 h4 h5
  subst h1
  subst h2
  cases e with
  | submit c =>
      cases ref with
      | false =>
          have hq : q = [] := h5 rfl
          have hfl : fl = [] := by
            by_contra hne
            exact absurd (h3.mpr hne) (by simp)
          subst hq
          subst hfl
          simp [seqStepB, handleCommandMessage, queueProcessingEffect, BInv]
      | true =>
          have hfl : fl ≠ [] := h3.mp rfl
          cases q with
          | nil =>
              refine ⟨rfl, rfl, ?_, h4, fun hcontra => Bool.noConfusion hcontra⟩
              exact h3
          | cons c' rest =>
              refine ⟨rfl, rfl, ?_, h4, fun hcontra => Bool.noConfusion hcontra⟩
              exact h3
  | complete =>
      cases q with
      | nil => simp [seqStepB, markCommandComplete, queueProcessingEffect, BInv]
      | cons c' rest =>
          cases ref with
          | false => exact absurd (h5 rfl) (by simp)
          | true =>
              simp [seqStepB, markCommandComplete, queueProcessingEffect, BInv]

lemma binv_run (tr : List SeqEvB) : BInv (runSeqB tr) := by
  have hgen : ∀ (t : List SeqEvB) (s : SeqState CmdId), BInv s →
      BInv (t.foldl seqStepB s) := by
    intro t
    induction t with
    | nil => intro s hs; exact hs
    | cons e t ih => intro s hs; exact ih (seqStepB s e) (binv_step s e hs)
  exact hgen tr initSeq binv_init

/-! ## Claim theorems -/

/-- C1: evaluation of the sequencer at the racing event sequence.  Command 10
is processed and completes with an empty queue; command 20 arrives before the
deferred queue-processing effect runs and is admitted immediately
(`isProcessingRef` was clear); the pending effect then takes its queue-empty
branch — which does not check `isProcessing` — and clears `isProcessingRef`
although command 20's handler has not completed (after the first four events
the flag is clear while command 20 is still in flight); command 30 is then
admitted immediately as well.  The final state has the handlers of commands
20 and 30 simultaneously in flight, contradicting the claim that at no point
two commands occupy the processing slot and that the slot is occupied exactly
when the sequencer is processing. -/
theorem c1_two_commands_in_flight :
    (runSeq c1Trace).inFlight = [20, 30] ∧
    2 ≤ (runSeq c1Trace).inFlight.length ∧
    (runSeq c1Trace).handled = [10, 20, 30] ∧
    (runSeq (c1Trace.take 4)).isProcessingRef = false ∧
    (runSeq (c1Trace.take 4)).inFlight = [20] := by
  refine ⟨rfl, by decide, rfl, rfl, rfl⟩

/-- C2 counterexample: processing a well-formed multiple-choice command (and
likewise a well-formed binary-choice command) calls `markCommandComplete`
synchronously inside `processCommand` (the returned flag is `true`) — the
sequencer does not remain processing until the user submits or cancels,
contradicting the claim. -/
theorem c2_question_autocompletes :
    (processMcqCommand mcqPayloadEx initQuizUi).2 = true ∧
    (processMcqCommand mcqPayloadEx initQuizUi).1.currentQuestion =
      some ⟨"2 + 2 = ?", [⟨"4", true⟩, ⟨"5", false⟩]⟩ ∧
    (processBinaryCommand binaryPayloadEx initQuizUi).2 = true ∧
    (processBinaryCommand binaryPayloadEx initQuizUi).1.currentBinaryQuestion =
      some ⟨"Is the sky blue?", "yes", "no", Side.left⟩ := by
  refine ⟨rfl, rfl, rfl, rfl⟩

/-- C2 amended: question commands complete immediately.  Processing a
multiple-choice or binary-choice command calls `markCommandComplete`
synchronously whatever the payload; with a well-formed payload the question
is presented (and stays visible — completion does not clear it).  For a
correct submission the interaction event with `correct: true` is sent
immediately and a further (duplicate) completion is scheduled after the fixed
2000 ms feedback delay. -/
theorem c2_question_completion_amended :
    (∀ (p : McqPayload) (ui : QuizUi), (processMcqCommand p ui).2 = true) ∧
    (∀ (p : BinaryPayload) (ui : QuizUi), (processBinaryCommand p ui).2 = true) ∧
    (∀ (q : String) (opts : List McqOption) (ui : QuizUi), q ≠ "" →
      (processMcqCommand ⟨some q, some opts⟩ ui).1.currentQuestion = some ⟨q, opts⟩) ∧
    (∀ (ui : QuizUi) (i : Nat) (q : McqQuestion) (opt : McqOption),
      ui.selectedOption = some i → ui.currentQuestion = some q →
      q.options.get? i = some opt → opt.correct = true →
      (submitAnswer ui).2 =
        [OutEffect.sendMcqInteraction i true, OutEffect.scheduleMcqClose 2000]) := by
  refine ⟨?_, ?_, ?_, ?_⟩
  · intro p ui
    obtain ⟨oq, oo⟩ := p
    cases oq <;> cases oo <;> simp [processMcqCommand] <;> split <;> rfl
  · intro p ui
    obtain ⟨oq, ol, or', oc⟩ := p
    cases oq <;> cases ol <;> cases or' <;> cases oc <;>
      simp [processBinaryCommand] <;> split <;> rfl
  · intro q opts ui hq
    simp [processMcqCommand, hq]
  · intro ui i q opt hsel hq hopt hc
    have hopt' : q.options[i]? = some opt := by simpa using hopt
    simp [submitAnswer, hsel, hq, hopt', hc]

/-- C2 amended witness at concrete inputs. -/
theorem c2_question_completion_amended_witness :
    (processMcqCommand mcqPayloadEx quizUiWrong).2 = true ∧
    (processMcqCommand ⟨some "2 + 2 = ?", some [⟨"4", true⟩, ⟨"5", false⟩]⟩
        initQuizUi).1.currentQuestion =
      some ⟨"2 + 2 = ?", [⟨"4", true⟩, ⟨"5", false⟩]⟩ ∧
    (submitAnswer quizUiRight).2 =
      [OutEffect.sendMcqInteraction 0 true, OutEffect.scheduleMcqClose 2000] :=
  ⟨c2_question_completion_amended.1 mcqPayloadEx quizUiWrong,
   c2_question_completion_amended.2.2.1 "2 + 2 = ?" [⟨"4", true⟩, ⟨"5", false⟩]
     initQuizUi (by decide),
   c2_question_completion_amended.2.2.2 quizUiRight 0
     ⟨"2 + 2 = ?", [⟨"4", true⟩, ⟨"5", false⟩]⟩ ⟨"4", true⟩ rfl rfl rfl rfl⟩

/-- C4 counterexample: in the composite schedule, command 1 (a question
command, completed immediately at processing time) is followed by command 2
(asynchronous, still in flight) with command 3 queued.  A duplicate
`markCommandComplete` for long-completed command 1 — e.g. `cancelQuestion` —
dequeues command 3 and invokes its handler even though command 2 never
completed, and discards command 2's in-flight status: the duplicate call is
not a no-op and advances the queue. -/
theorem c4_duplicate_complete_advances :
    (runSeqB c4Trace).inFlight = [2] ∧
    (runSeqB c4Trace).commandQueue = [3] ∧
    (runSeqB c4Trace).handled = [1, 2] ∧
    (runSeqB (c4Trace ++ [SeqEvB.complete])).handled = [1, 2, 3] ∧
    (runSeqB (c4Trace ++ [SeqEvB.complete])).inFlight = [3] := by
  refine ⟨rfl, rfl, rfl, rfl, rfl⟩

/-- C4 amended: a duplicate `markCommandComplete` issued while the sequencer
is idle (`isProcessingRef` clear) is a complete no-op — the composite step
leaves the whole state unchanged, so nothing is dequeued and no handler is
invoked.  (When a different command is processing, a duplicate completion
instead force-completes it and advances the queue, as the counterexample
shows: completion calls are not tied to a specific command.) -/
theorem c4_duplicate_complete_idle_noop (tr : List SeqEvB)
    (h : (runSeqB tr).isProcessingRef = false) :
    seqStepB (runSeqB tr) SeqEvB.complete = runSeqB tr := by
  have hInv := binv_run tr
  obtain ⟨h1, h2, h3, h4, h5⟩ := hInv
  set s := runSeqB tr with hs
  have hq : s.commandQueue = [] := h5 h
  have hfl : s.inFlight = [] := by
    by_contra hne
    rw [h3.mpr hne] at h
    exact Bool.noConfusion h
  have hproc : s.isProcessing = false := by rw [← h2]; exact h
  obtain ⟨q, ref, proc, sn, fl, hd⟩ := s
  simp only at h1 hq hfl hproc h
  subst h1
  subst hq
  subst hfl
  subst hproc
  subst h
  rfl

/-- C4 witness: the no-op instance on the empty trace. -/
theorem c4_duplicate_complete_idle_noop_witness :
    seqStepB (runSeqB []) SeqEvB.complete = runSeqB [] :=
  c4_duplicate_complete_idle_noop [] rfl

/-- C10: an inbound `command` message whose envelope lacks `command_type` or
lacks `payload` is discarded by `handleWebSocketMessage` — the sequencer
state (queue, flags, ghost history) is left entirely unchanged; a message
without a `command` object is likewise discarded. -/
theorem c10_malformed_command_discarded {P : Type}
    (env : CmdEnvelope P) (s : SeqState (String × P))
    (h : env.command_type = none ∨ env.payload = none) :
    handleWsCommandMessage ⟨some env⟩ s = s ∧
    handleWsCommandMessage (⟨none⟩ : WsCommandMsg P) s = s := by
  constructor
  · obtain ⟨oct, op⟩ := env
    rcases h with h | h
    · simp only at h
      subst h
      rfl
    · simp only at h
      subst h
      cases oct <;> rfl
  · rfl

/-- C10 witness: a command message with a payload but no `command_type` is
discarded from the initial state. -/
theorem c10_malformed_command_discarded_witness :
    handleWsCommandMessage ⟨some ⟨none, some (0 : Nat)⟩⟩
        (initSeq : SeqState (String × Nat)) = initSeq ∧
    handleWsCommandMessage (⟨none⟩ : WsCommandMsg Nat)
        (initSeq : SeqState (String × Nat)) = initSeq :=
  c10_malformed_command_discarded ⟨none, some 0⟩ initSeq (Or.inl rfl)

/-- C3 counterexample: one fragment is added, scheduled, and finishes playing
before the stream is marked closed (`setOnEndCallback`).  The end-of-utterance
signal has fired zero times — not exactly once — although the interleaving
consists of `addFragment` calls and playback-end callbacks followed by the
stream-closed marker; the callback remains installed with nothing active,
nothing pending and no decode awaited, so no later player event can fire it
(playback-end, begin and resolve steps are no-ops from this state short of
new fragments). -/
theorem c3_end_signal_zero_fires :
    (runP c3Trace).fires = 0 ∧
    (runP c3Trace).callbackSet = true ∧
    (runP c3Trace).activeNodes = [] ∧
    (runP c3Trace).pendingChunks = [] ∧
    (runP c3Trace).decoding = none ∧
    (runP c3Trace).isProcessing = false := by
  refine ⟨rfl, rfl, rfl, rfl, rfl, rfl⟩

/-- C3 amended: the end-of-utterance signal fires at most once per
installation of the callback (at most once per utterance), and it fires only
on a playback-end event, only when the active set and the pending queue are
drained, and only when the callback was installed beforehand (so never before
the stream is marked closed); if the callback is never installed, the signal
never fires.  Exactly-once fails: when the callback is installed after
playback has already drained, the signal never fires (see the
counterexample). -/
theorem c3_end_signal_at_most_once :
    (∀ tr : List PEv, setCbCount tr ≤ 1 → (runP tr).fires ≤ 1) ∧
    (∀ (tr : List PEv) (e : PEv), (runP (tr ++ [e])).fires ≠ (runP tr).fires →
      (runP (tr ++ [e])).activeNodes = [] ∧
      (runP (tr ++ [e])).pendingChunks = [] ∧
      (runP tr).callbackSet = true ∧ ∃ i, e = PEv.ended i) ∧
    (∀ tr : List PEv, setCbCount tr = 0 →
      (runP tr).fires = 0 ∧ (runP tr).callbackSet = false) := by
  refine ⟨?_, fires_change_drained, ?_⟩
  · intro tr h
    have hb := fires_le_setCbCount tr
    omega
  · intro tr h
    have hb := fires_le_setCbCount tr
    rw [h] at hb
    constructor
    · omega
    · by_contra hcb
      rw [Bool.not_eq_false] at hcb
      simp [cbBit, hcb] at hb

/-- C3 witness: at-most-once on a trace with one stream-closed marker; the
fire-condition conjunct at a playback-end event that does change the count;
the never-fires conjunct on a marker-free trace. -/
theorem c3_end_signal_at_most_once_witness :
    (runP c3FireTrace).fires ≤ 1 ∧
    ((runP (c3FireTrace ++ [PEv.ended 1])).activeNodes = [] ∧
     (runP (c3FireTrace ++ [PEv.ended 1])).pendingChunks = [] ∧
     (runP c3FireTrace).callbackSet = true ∧ ∃ i, PEv.ended 1 = PEv.ended i) ∧
    ((runP [PEv.add chunkA]).fires = 0 ∧ (runP [PEv.add chunkA]).callbackSet = false) :=
  ⟨c3_end_signal_at_most_once.1 c3FireTrace (by decide),
   c3_end_signal_at_most_once.2.1 c3FireTrace (PEv.ended 1) (by decide),
   c3_end_signal_at_most_once.2.2 [PEv.add chunkA] rfl⟩

/-- C7: back-to-back scheduling.  With fragment `c1` in the awaited-decode
slot and `c2` queued behind it, the resolution of `c1`'s decode at clock `t1`
starts it at `max t1 nextStartTime` and advances `nextStartTime` by its
duration; the chained invocation then shifts `c2`, and provided its decode
resolves no later than `c1`'s scheduled end (`t2 ≤ max t1 nextStartTime +
dur1` — the spec's decode-before-scheduled-start proviso), `c2`'s scheduled
start equals `c1`'s scheduled start plus `c1`'s duration — no gap and no
overlap, independent of the decode-completion times. -/
theorem c7_gapless_scheduling (s : PlayerState) (c1 c2 : Chunk) (t1 t2 : ℚ)
    (hd : s.decoding = some c1) (hp : s.pendingChunks = [c2])
    (h1 : c1.decodeOk = true) (h2 : c2.decodeOk = true) :
    (processNextChunkResolve t1 s).starts =
      s.starts ++ [(c1.id, max t1 s.nextStartTime)] ∧
    (processNextChunkResolve t1 s).nextStartTime =
      max t1 s.nextStartTime + c1.dur ∧
    (t2 ≤ max t1 s.nextStartTime + c1.dur →
      (processNextChunkResolve t2 (processNextChunkBegin
          (processNextChunkResolve t1 s))).starts =
        s.starts ++ [(c1.id, max t1 s.nextStartTime),
                     (c2.id, max t1 s.nextStartTime + c1.dur)]) := by
  refine ⟨?_, ?_, ?_⟩
  · simp [processNextChunkResolve, hd, h1]
  · simp [processNextChunkResolve, hd, h1]
  · intro hle
    simp [processNextChunkResolve, processNextChunkBegin, hd, hp, h1, h2,
      max_eq_right hle]

/-- C7 witness: fragments of durations 2 and 3/2 handed to an idle player,
first decode resolving at clock 0, second at clock 1 (before the first
fragment's scheduled end 2): the second starts exactly at offset 2. -/
theorem c7_gapless_scheduling_witness :
    (processNextChunkResolve 1 (processNextChunkBegin
        (processNextChunkResolve 0 playerTwoChunks))).starts =
      playerTwoChunks.starts ++
        [(chunkA.id, max 0 playerTwoChunks.nextStartTime),
         (chunkB.id, max 0 playerTwoChunks.nextStartTime + chunkA.dur)] :=
  (c7_gapless_scheduling playerTwoChunks chunkA chunkB 0 1 rfl rfl rfl rfl).2.2
    (by norm_num [playerTwoChunks, runP, pstep, addChunk, processNextChunkBegin,
      chunkA, chunkB, initPlayer])

/-- C8 counterexample: the last fragment of the utterance — shifted straight
into the awaited-decode slot by its `addChunk` kick — fails to decode with
nothing else active, and the stream is closed (`setOnEndCallback`
installed): the error is caught, but the end-of-utterance signal does not
fire — the callback stays installed with zero fires and nothing active,
pending or awaited, so a speech command waiting on it stays pending,
contradicting the claim that the signal still fires when the failed fragment
was the last one. -/
theorem c8_decode_failure_no_fire :
    (runP c8Trace).fires = 0 ∧
    (runP c8Trace).callbackSet = true ∧
    (runP c8Trace).pendingChunks = [] ∧
    (runP c8Trace).activeNodes = [] ∧
    (runP c8Trace).decoding = none := by
  refine ⟨rfl, rfl, rfl, rfl, rfl⟩

/-- C8 amended: a failing decode is caught locally — the invocation shifts
the failed fragment off the queue and its failing resolution then only
discards it and clears `isProcessing`, leaving active playback, the
installed callback and the fire count untouched — and playback continues
with the next pending fragment, which the chained invocation shifts and
schedules normally.  But the error path never fires the end-of-utterance
signal, so when the failed fragment was the last one and nothing is active
the callback stays pending (it can fire only through a later playback-end or
`stop`). -/
theorem c8_decode_failure_contained (s : PlayerState) (c : Chunk)
    (rest : List Chunk) (t : ℚ) (hd : s.decoding = none)
    (hp : s.pendingChunks = c :: rest) (hc : c.decodeOk = false) :
    processNextChunkResolve t (processNextChunkBegin s) =
      { s with pendingChunks := rest, isProcessing := false } ∧
    (∀ (c2 : Chunk) (rest2 : List Chunk) (t2 : ℚ), rest = c2 :: rest2 →
      c2.decodeOk = true →
      (processNextChunkResolve t2 (processNextChunkBegin
          (processNextChunkResolve t (processNextChunkBegin s)))).starts =
        s.starts ++ [(c2.id, max t2 s.nextStartTime)]) ∧
    (processNextChunkResolve t (processNextChunkBegin s)).fires = s.fires ∧
    (processNextChunkResolve t (processNextChunkBegin s)).callbackSet = s.callbackSet ∧
    (processNextChunkResolve t (processNextChunkBegin s)).activeNodes = s.activeNodes := by
  obtain ⟨nst, ip, pc, ipr, cb, an, dc, fi, st⟩ := s
  simp only at hd hp
  subst hd
  subst hp
  refine ⟨?_, ?_, ?_, ?_, ?_⟩
  · simp [processNextChunkBegin, processNextChunkResolve, hc]
  · intro c2 rest2 t2 hrest h2
    subst hrest
    simp [processNextChunkBegin, processNextChunkResolve, hc, h2]
  · simp [processNextChunkBegin, processNextChunkResolve, hc]
  · simp [processNextChunkBegin, processNextChunkResolve, hc]
  · simp [processNextChunkBegin, processNextChunkResolve, hc]

/-- C8 witness: after a failing decode with one good fragment still pending,
the good fragment is scheduled at the expected offset. -/
theorem c8_decode_failure_contained_witness :
    processNextChunkResolve 0 (processNextChunkBegin c8StartState) =
      { c8StartState with pendingChunks := [chunkA], isProcessing := false } ∧
    (processNextChunkResolve 5 (processNextChunkBegin
        (processNextChunkResolve 0 (processNextChunkBegin c8StartState)))).starts =
      c8StartState.starts ++ [(chunkA.id, max 5 c8StartState.nextStartTime)] := by
  have h := c8_decode_failure_contained c8StartState chunkBad [chunkA] 0 rfl rfl rfl
  exact ⟨h.1, h.2.1 chunkA [] 5 rfl rfl⟩

/-- C6 counterexample: fragment 1 (duration 2) is scheduled and playing with
nothing pending; the closing command (`stream_complete: true`) hands in
fragment 2 — whose `addChunk` kick immediately shifts it off `pendingChunks`
into the awaited-decode slot — and then installs the end callback; fragment
1's playback then ends while fragment 2's decode is still awaited.  At that
`onended` both `activeSourceNodes` and `pendingChunks` are empty (the
awaited fragment is in neither, source line 104), so the end-of-utterance
signal fires — `fires = 1` with the callback consumed — although buffered
fragment 2 has not been scheduled, let alone played: it becomes active only
when its decode later resolves.  The `stream_complete: true` command thus
completes (1 s after the signal) before its last buffered fragment finishes
playing, contradicting the claim. -/
theorem c6_completes_before_last_fragment :
    (runP c6Trace).fires = 1 ∧
    (runP c6Trace).callbackSet = false ∧
    (runP c6Trace).decoding = some chunkB ∧
    (runP c6Trace).starts.map Prod.fst = [1] ∧
    (runP c6Trace).activeNodes = [] ∧
    (runP c6Trace).pendingChunks = [] ∧
    (runP (c6Trace ++ [PEv.resolve 5])).starts.map Prod.fst = [1, 2] ∧
    (runP (c6Trace ++ [PEv.resolve 5])).activeNodes = [2] := by
  refine ⟨rfl, rfl, rfl, rfl, rfl, rfl, rfl, rfl⟩

/-- C6 amended: `streamComplete` gating.  For an audio-bearing speech
command with the player initialized: when `stream_complete` is not `true`,
the handler hands the fragment to the scheduler and calls
`markCommandComplete` in the same run, without installing the end callback —
it does not wait for playback; when `stream_complete` is `true`, the handler
hands the fragment over, does not complete, and installs the end-of-utterance
callback, deferring completion to it.  The callback fires only at a point
where the active-playback set and the pending-fragment queue are both empty —
but a fragment whose decode is still awaited is in neither, so the signal
(and hence the command's completion) can precede the playback of the last
buffered fragment, as the counterexample shows. -/
theorem c6_stream_complete_gating :
    (∀ (s : PlayerState) (p : SpeechPayload) (c : Chunk),
      p.audio_bytes = some c → p.stream_complete ≠ some true →
      processSpeech true s p = (addChunk c s, true)) ∧
    (∀ (s : PlayerState) (p : SpeechPayload) (c : Chunk),
      p.audio_bytes = some c → p.stream_complete = some true →
      processSpeech true s p = (setOnEndCallback (addChunk c s), false)) ∧
    (∀ (tr : List PEv) (e : PEv), (runP (tr ++ [e])).fires ≠ (runP tr).fires →
      (runP (tr ++ [e])).activeNodes = [] ∧ (runP (tr ++ [e])).pendingChunks = []) := by
  refine ⟨?_, ?_, ?_⟩
  · intro s p c hab hsc
    simp [processSpeech, playStreamingAudio, hab, hsc]
  · intro s p c hab hsc
    simp [processSpeech, playStreamingAudio, hab, hsc]
  · intro tr e h
    exact ⟨(fires_change_drained tr e h).1, (fires_change_drained tr e h).2.1⟩

/-- C6 witness: the open and closing speech payloads, and the drained-fire
condition at a concrete playback-end event. -/
theorem c6_stream_complete_gating_witness :
    processSpeech true initPlayer speechOpenPayload = (addChunk chunkA initPlayer, true) ∧
    processSpeech true initPlayer speechClosingPayload =
      (setOnEndCallback (addChunk chunkB initPlayer), false) ∧
    ((runP (c3FireTrace ++ [PEv.ended 1])).activeNodes = [] ∧
     (runP (c3FireTrace ++ [PEv.ended 1])).pendingChunks = []) :=
  ⟨c6_stream_complete_gating.1 initPlayer speechOpenPayload chunkA rfl (by decide),
   c6_stream_complete_gating.2.1 initPlayer speechClosingPayload chunkB rfl rfl,
   c6_stream_complete_gating.2.2 c3FireTrace (PEv.ended 1) (by decide)⟩

/-- C9: answering a question.  An incorrect submission sends the
`student_interaction` event with `correct: false`, leaves the question
presented (not dismissed), and neither completes the command nor schedules a
completion; a correct submission sends `correct: true` and schedules the
close-and-complete after the 2000 ms feedback delay; cancelling clears the
question and completes immediately.  The binary-choice handlers behave
identically. -/
theorem c9_incorrect_answer_behavior :
    (∀ (ui : QuizUi) (i : Nat) (q : McqQuestion) (opt : McqOption),
      ui.selectedOption = some i → ui.currentQuestion = some q →
      q.options.get? i = some opt → opt.correct = false →
      (submitAnswer ui).2 = [OutEffect.sendMcqInteraction i false] ∧
      (submitAnswer ui).1.currentQuestion = some q) ∧
    (∀ (ui : QuizUi) (i : Nat) (q : McqQuestion) (opt : McqOption),
      ui.selectedOption = some i → ui.currentQuestion = some q →
      q.options.get? i = some opt → opt.correct = true →
      (submitAnswer ui).2 =
        [OutEffect.sendMcqInteraction i true, OutEffect.scheduleMcqClose 2000]) ∧
    (∀ ui : QuizUi, (cancelQuestion ui).2 = [OutEffect.completeNow] ∧
      (cancelQuestion ui).1.currentQuestion = none) ∧
    (∀ (ui : QuizUi) (ch : Side) (q : BinaryQuestion),
      ui.selectedBinaryChoice = some ch → ui.currentBinaryQuestion = some q →
      ch ≠ q.correct →
      (submitBinaryAnswer ui).2 = [OutEffect.sendBinaryInteraction ch false] ∧
      (submitBinaryAnswer ui).1.currentBinaryQuestion = some q) ∧
    (∀ (ui : QuizUi) (ch : Side) (q : BinaryQuestion),
      ui.selectedBinaryChoice = some ch → ui.currentBinaryQuestion = some q →
      ch = q.correct →
      (submitBinaryAnswer ui).2 =
        [OutEffect.sendBinaryInteraction ch true, OutEffect.scheduleBinaryClose 2000]) ∧
    (∀ ui : QuizUi, (cancelBinaryQuestion ui).2 = [OutEffect.completeNow] ∧
      (cancelBinaryQuestion ui).1.currentBinaryQuestion = none) := by
  refine ⟨?_, ?_, ?_, ?_, ?_, ?_⟩
  · intro ui i q opt hsel hq hopt hc
    have hopt' : q.options[i]? = some opt := by simpa using hopt
    constructor <;> simp [submitAnswer, hsel, hq, hopt', hc]
  · intro ui i q opt hsel hq hopt hc
    have hopt' : q.options[i]? = some opt := by simpa using hopt
    simp [submitAnswer, hsel, hq, hopt', hc]
  · intro ui
    exact ⟨rfl, rfl⟩
  · intro ui ch q hsel hq hne
    constructor <;> simp [submitBinaryAnswer, hsel, hq, hne]
  · intro ui ch q hsel hq he
    simp [submitBinaryAnswer, hsel, hq, he]
  · intro ui
    exact ⟨rfl, rfl⟩

/-- C9 witness: the concrete wrong and right selections for both question
kinds, and cancellation. -/
theorem c9_incorrect_answer_behavior_witness :
    ((submitAnswer quizUiWrong).2 = [OutEffect.sendMcqInteraction 1 false] ∧
     (submitAnswer quizUiWrong).1.currentQuestion =
       some ⟨"2 + 2 = ?", [⟨"4", true⟩, ⟨"5", false⟩]⟩) ∧
    (submitAnswer quizUiRight).2 =
      [OutEffect.sendMcqInteraction 0 true, OutEffect.scheduleMcqClose 2000] ∧
    (cancelQuestion quizUiWrong).2 = [OutEffect.completeNow] ∧
    ((submitBinaryAnswer binaryUiWrong).2 =
       [OutEffect.sendBinaryInteraction Side.right false] ∧
     (submitBinaryAnswer binaryUiWrong).1.currentBinaryQuestion =
       some ⟨"Is the sky blue?", "yes", "no", Side.left⟩) ∧
    (submitBinaryAnswer binaryUiRight).2 =
      [OutEffect.sendBinaryInteraction Side.left true,
       OutEffect.scheduleBinaryClose 2000] ∧
    (cancelBinaryQuestion binaryUiWrong).2 = [OutEffect.completeNow] :=
  ⟨c9_incorrect_answer_behavior.1 quizUiWrong 1
      ⟨"2 + 2 = ?", [⟨"4", true⟩, ⟨"5", false⟩]⟩ ⟨"5", false⟩ rfl rfl rfl rfl,
   c9_incorrect_answer_behavior.2.1 quizUiRight 0
      ⟨"2 + 2 = ?", [⟨"4", true⟩, ⟨"5", false⟩]⟩ ⟨"4", true⟩ rfl rfl rfl rfl,
   (c9_incorrect_answer_behavior.2.2.1 quizUiWrong).1,
   c9_incorrect_answer_behavior.2.2.2.1 binaryUiWrong Side.right
      ⟨"Is the sky blue?", "yes", "no", Side.left⟩ rfl rfl (by decide),
   c9_incorrect_answer_behavior.2.2.2.2.1 binaryUiRight Side.left
      ⟨"Is the sky blue?", "yes", "no", Side.left⟩ rfl rfl rfl,
   (c9_incorrect_answer_behavior.2.2.2.2.2 binaryUiWrong).1⟩

lemma runSeqFrom_append (s : SeqState CmdId) (xs ys : List SeqEv) :
    runSeqFrom s (xs ++ ys) = runSeqFrom (runSeqFrom s xs) ys :=
  List.foldl_append seqStep s xs ys

/-- Submitting while the in-flight flag is set appends the command at the
tail of the handled-plus-queued sequence. -/
lemma submit_processing_combined (s : SeqState CmdId) (c : CmdId)
    (h : s.isProcessingRef = true) :
    (seqStep s (SeqEv.submit c)).handled ++ (seqStep s (SeqEv.submit c)).commandQueue
      = (s.handled ++ s.commandQueue) ++ [c] := by
  simp [seqStep, handleCommandMessage, h, List.append_assoc]

/-- C5: FIFO preservation.  First conjunct: if commands `a` and then `b` are
submitted while the sequencer is processing (the in-flight flag set at both
submission instants), then — for any distinct command ids and any
continuation — whenever `b`'s handler has been invoked, `a`'s handler was
invoked strictly before it (the pair embeds in order into the handler
invocation log).  Second conjunct: no command is skipped — at every point the
handled log followed by the queue is a permutation of all submitted commands
in submission order. -/
theorem c5_fifo_preserved :
    (∀ (pre mid post : List SeqEv) (a b : CmdId),
      (runSeq pre).isProcessingRef = true →
      (runSeq (pre ++ SeqEv.submit a :: mid)).isProcessingRef = true →
      (submittedOf (pre ++ SeqEv.submit a :: mid ++ SeqEv.submit b :: post)).Nodup →
      b ∈ (runSeq (pre ++ SeqEv.submit a :: mid ++ SeqEv.submit b :: post)).handled →
      List.Sublist [a, b]
        (runSeq (pre ++ SeqEv.submit a :: mid ++ SeqEv.submit b :: post)).handled) ∧
    (∀ tr : List SeqEv,
      List.Perm ((runSeq tr).handled ++ (runSeq tr).commandQueue) (submittedOf tr)) := by
  constructor
  · intro pre mid post a b hpre hmid hnodup hb
    have hmids1 : runSeq (pre ++ SeqEv.submit a :: mid) =
        runSeqFrom (seqStep (runSeq pre) (SeqEv.submit a)) mid := by
      rw [runSeq_append, runSeqFrom_cons]
    have hrun : runSeq (pre ++ SeqEv.submit a :: mid ++ SeqEv.submit b :: post) =
        runSeqFrom (seqStep (runSeqFrom (seqStep (runSeq pre) (SeqEv.submit a)) mid)
          (SeqEv.submit b)) post := by
      rw [runSeq_append, runSeqFrom_cons, hmids1]
    have e0 := submit_processing_combined (runSeq pre) a hpre
    have ha1 : List.Sublist [a]
        ((seqStep (runSeq pre) (SeqEv.submit a)).handled ++
          (seqStep (runSeq pre) (SeqEv.submit a)).commandQueue) := by
      rw [e0]
      exact List.sublist_append_right _ [a]
    have ha2 := combined_sublist_runFrom mid (seqStep (runSeq pre) (SeqEv.submit a)) [a] ha1
    rw [hmids1] at hmid
    have e1 := submit_processing_combined
      (runSeqFrom (seqStep (runSeq pre) (SeqEv.submit a)) mid) b hmid
    have hab : List.Sublist [a, b]
        ((seqStep (runSeqFrom (seqStep (runSeq pre) (SeqEv.submit a)) mid)
            (SeqEv.submit b)).handled ++
          (seqStep (runSeqFrom (seqStep (runSeq pre) (SeqEv.submit a)) mid)
            (SeqEv.submit b)).commandQueue) := by
      rw [e1]
      exact ha2.append (List.Sublist.refl [b])
    have habF := combined_sublist_runFrom post
      (seqStep (runSeqFrom (seqStep (runSeq pre) (SeqEv.submit a)) mid) (SeqEv.submit b))
      [a, b] hab
    have hnd : ((runSeq (pre ++ SeqEv.submit a :: mid ++ SeqEv.submit b :: post)).handled ++
        (runSeq (pre ++ SeqEv.submit a :: mid ++ SeqEv.submit b :: post)).commandQueue).Nodup :=
      ((combined_perm (pre ++ SeqEv.submit a :: mid ++ SeqEv.submit b :: post)).nodup_iff).mpr
        hnodup
    rw [hrun] at hnd hb ⊢
    exact sublist_pair_prefix a b _ _ habF hb hnd
  · exact combined_perm

/-- C5 witness: with command 100 processing, commands 7 and 8 are queued in
that order; two completions with their effect flushes then invoke the
handlers in order 100, 7, 8, and the pair (7, 8) embeds in order into the
handler log; the handled-plus-queued commands are a permutation of all
submissions. -/
theorem c5_fifo_preserved_witness :
    List.Sublist [7, 8]
      (runSeq ([SeqEv.submit 100] ++ SeqEv.submit 7 :: [] ++ SeqEv.submit 8 ::
        [SeqEv.complete, SeqEv.effect, SeqEv.complete, SeqEv.effect])).handled ∧
    List.Perm
      ((runSeq [SeqEv.submit 100, SeqEv.submit 7, SeqEv.submit 8]).handled ++
        (runSeq [SeqEv.submit 100, SeqEv.submit 7, SeqEv.submit 8]).commandQueue)
      (submittedOf [SeqEv.submit 100, SeqEv.submit 7, SeqEv.submit 8]) :=
  ⟨c5_fifo_preserved.1 [SeqEv.submit 100] [] [SeqEv.complete, SeqEv.effect,
      SeqEv.complete, SeqEv.effect] 7 8 rfl rfl (by decide) (by decide),
   c5_fifo_preserved.2 [SeqEv.submit 100, SeqEv.submit 7, SeqEv.submit 8]⟩
